import Mathlib

/-!
Shallow embedding of the signature-matching core of `real-file-type`
(src/index.js), together with theorems settling the specification's claims.

Modelling choices, mirroring the JavaScript source:

* A byte buffer (`Uint8Array` in the source) is a `List Nat`; indexing
  `buffers[k]` yields `undefined` when `k` is out of range, which we model
  with `List.getElem?` returning `none`.
* A pattern byte (`signature[i]` in the source) is an `Option Nat`:
  `some v` is a concrete byte value, `none` is the source's `undefined`
  wildcard entry.
* JavaScript strict inequality `bufferss[i + offset] !== signature[i]`
  compares two possibly-`undefined` values; it is exactly inequality of the
  corresponding `Option Nat` values.
-/

/-- A signature-list item, as in the source's `signature-list.js` records
`{ mime, ext, offset, signature }`. -/
structure SignatureEntry where
  mime : String
  ext : String
  offset : Nat
  signature : List (Option Nat)
deriving DecidableEq, Repr

/-- The loop body of the source's `check`: scan the remaining pattern bytes
`sig`, where the head currently sits at pattern index `i`; fail as soon as
`bufferss[i + offset] !== signature[i] && signature[i] !== undefined`. -/
def checkAux (buffers : List Nat) (offset : Nat) : List (Option Nat) → Nat → Bool
  | [], _ => true
  | s :: rest, i =>
    if buffers[i + offset]? ≠ s ∧ s ≠ none then false
    else checkAux buffers offset rest (i + 1)

/-- The source's `check`: does the byte data satisfy the entry's signature,
starting the comparison at the entry's offset? -/
def check (buffers : List Nat) (entry : SignatureEntry) : Bool :=
  checkAux buffers entry.offset entry.signature 0

/-- The value computed by the source's `getFileType` resolution step:
`{ mime, ext }`. -/
structure FileTypeResult where
  mime : String
  ext : String
deriving DecidableEq, Repr

/-- The pure classification step of the source's `getFileType` (the `.then`
callback, after the byte window has been acquired): scan `signatureList` in
order, return `{ mime, ext }` of the first entry whose `check` succeeds, and
fall back to `{ mime: file.type, ext: "" }` when none does.  The table and the
fallback mime (`file.type` in the source) are explicit parameters here. -/
def getFileType (buffers : List Nat) (signatureList : List SignatureEntry)
    (fileType : String) : FileTypeResult :=
  match signatureList with
  | [] => ⟨fileType, ""⟩
  | e :: rest =>
    if check buffers e then ⟨e.mime, e.ext⟩ else getFileType buffers rest fileType

/-- Positionwise characterisation of `checkAux`: it succeeds iff every
remaining pattern position is a wildcard or agrees with the buffer byte at
its offset position. -/
lemma checkAux_eq_true_iff (buffers : List Nat) (offset : Nat) :
    ∀ (sig : List (Option Nat)) (i : Nat),
      checkAux buffers offset sig i = true ↔
        ∀ j s, sig[j]? = some s → (s = none ∨ buffers[i + j + offset]? = s) := by
  intro sig
  induction sig with
  | nil =>
    intro i
    simp [checkAux]
  | cons s rest ih =>
    intro i
    constructor
    · intro h j t ht
      rw [checkAux] at h
      by_cases hc : buffers[i + offset]? ≠ s ∧ s ≠ none
      · simp [hc] at h
      · rw [if_neg hc] at h
        match j with
        | 0 =>
          simp only [List.getElem?_cons_zero, Option.some_inj] at ht
          subst ht
          rcases not_and_or.mp hc with hb | hs
          · right
            simpa using not_not.mp hb
          · left
            exact not_not.mp hs
        | j + 1 =>
          simp only [List.getElem?_cons_succ] at ht
          have := (ih (i + 1)).mp h j t ht
          rcases this with h1 | h2
          · exact Or.inl h1
          · right
            have : i + 1 + j = i + (j + 1) := by omega
            rwa [this] at h2
    · intro h
      rw [checkAux]
      have hhead := h 0 s (by simp)
      have hc : ¬(buffers[i + offset]? ≠ s ∧ s ≠ none) := by
        rcases hhead with h1 | h2
        · exact fun hand => hand.2 h1
        · simp only [Nat.add_zero] at h2
          exact fun hand => hand.1 h2
      rw [if_neg hc]
      refine (ih (i + 1)).mpr ?_
      intro j t ht
      have := h (j + 1) t (by simpa using ht)
      rcases this with h1 | h2
      · exact Or.inl h1
      · right
        have : i + (j + 1) = i + 1 + j := by omega
        rwa [this] at h2

/-- Positionwise characterisation of `check`: success iff every pattern
position is a wildcard or the buffer byte at `offset + i` equals it. -/
lemma check_eq_true_iff (b : List Nat) (e : SignatureEntry) :
    check b e = true ↔
      ∀ i s, e.signature[i]? = some s → (s = none ∨ b[e.offset + i]? = s) := by
  unfold check
  rw [checkAux_eq_true_iff]
  constructor
  · intro h i s hs
    rcases h i s hs with h1 | h2
    · exact Or.inl h1
    · right
      have : 0 + i + e.offset = e.offset + i := by omega
      rwa [this] at h2
  · intro h i s hs
    rcases h i s hs with h1 | h2
    · exact Or.inl h1
    · right
      have : e.offset + i = 0 + i + e.offset := by omega
      rwa [this] at h2

/-- If no entry of the table matches, `getFileType` returns the fallback
result `{ mime: fileType, ext: "" }`. -/
lemma getFileType_eq_fallback (b : List Nat) (table : List SignatureEntry)
    (fb : String) (h : ∀ e ∈ table, check b e = false) :
    getFileType b table fb = ⟨fb, ""⟩ := by
  induction table with
  | nil => rfl
  | cons e rest ih =>
    have he : check b e = false := h e (List.mem_cons_self e rest)
    rw [getFileType, if_neg (by simp [he])]
    exact ih fun r hr => h r (List.mem_cons_of_mem e hr)

/-- `getFileType` is exhaustive: either some table entry matches and the
result is that entry's `{ mime, ext }`, or no entry matches and the result is
the fallback. -/
lemma getFileType_cases (b : List Nat) (table : List SignatureEntry)
    (fb : String) :
    (∃ r, r ∈ table ∧ check b r = true ∧ getFileType b table fb = ⟨r.mime, r.ext⟩) ∨
      ((∀ r ∈ table, check b r = false) ∧ getFileType b table fb = ⟨fb, ""⟩) := by
  induction table with
  | nil =>
    right
    exact ⟨by simp, rfl⟩
  | cons e rest ih =>
    by_cases he : check b e = true
    · left
      exact ⟨e, List.mem_cons_self e rest, he, by rw [getFileType, if_pos he]⟩
    · have hfalse : check b e = false := by simpa using he
      rcases ih with ⟨r, hr, hcheck, hres⟩ | ⟨hnone, hres⟩
      · left
        refine ⟨r, List.mem_cons_of_mem e hr, hcheck, ?_⟩
        rw [getFileType, if_neg (by simp [hfalse])]
        exact hres
      · right
        constructor
        · intro r hr
          rcases List.mem_cons.mp hr with h1 | h2
          · exact h1 ▸ hfalse
          · exact hnone r h2
        · rw [getFileType, if_neg (by simp [hfalse])]
          exact hres

/-- First-match-wins, index form: if the entry at index `i` matches and no
earlier entry does, the result is that entry's `{ mime, ext }`. -/
lemma getFileType_first_index (b : List Nat) (fb : String) :
    ∀ (table : List SignatureEntry) (i : Nat) (e : SignatureEntry),
      table[i]? = some e → check b e = true →
      (∀ j r, j < i → table[j]? = some r → check b r = false) →
      getFileType b table fb = ⟨e.mime, e.ext⟩ := by
  intro table
  induction table with
  | nil =>
    intro i e hi
    simp at hi
  | cons t rest ih =>
    intro i e hi hcheck hfirst
    match i with
    | 0 =>
      simp only [List.getElem?_cons_zero, Option.some_inj] at hi
      subst hi
      rw [getFileType, if_pos hcheck]
    | i + 1 =>
      simp only [List.getElem?_cons_succ] at hi
      have ht : check b t = false := hfirst 0 t (Nat.succ_pos i) (by simp)
      rw [getFileType, if_neg (by simp [ht])]
      exact ih i e hi hcheck fun j r hj hr =>
        hfirst (j + 1) r (Nat.succ_lt_succ hj) (by simpa using hr)

/-- The PNG entry from the source's signature list. -/
def pngEntry : SignatureEntry :=
  ⟨"image/png", "png", 0,
    [some 0x89, some 0x50, some 0x4E, some 0x47, some 0x0D, some 0x0A,
      some 0x1A, some 0x0A]⟩

/-- A second entry with the PNG pattern but a different mime, used to
exercise order sensitivity. -/
def pngShadowEntry : SignatureEntry :=
  ⟨"image/png-shadow", "png2", 0,
    [some 0x89, some 0x50, some 0x4E, some 0x47, some 0x0D, some 0x0A,
      some 0x1A, some 0x0A]⟩

/-- An entry whose signature is a single wildcard (`[undefined]` in the
source's representation). -/
def wildcardEntry : SignatureEntry := ⟨"image/any", "any", 0, [none]⟩

/-- An entry whose signature is empty. -/
def emptySigEntry : SignatureEntry := ⟨"image/empty", "emp", 0, []⟩

/-- A 16-byte buffer beginning with the PNG magic bytes. -/
def pngBuffer : List Nat :=
  [0x89, 0x50, 0x4E, 0x47, 0x0D, 0x0A, 0x1A, 0x0A, 0, 0, 0, 13, 73, 72, 68, 82]

/-- A concrete pattern byte whose buffer position is past the buffer's end
makes `check` fail. -/
lemma check_false_of_absent (b : List Nat) (e : SignatureEntry) (i v : Nat)
    (hp : e.signature[i]? = some (some v)) (hb : b.length ≤ e.offset + i) :
    check b e = false := by
  cases hc : check b e with
  | false => rfl
  | true =>
    exfalso
    have hpos := (check_eq_true_iff b e).mp hc i (some v) hp
    rcases hpos with h1 | h2
    · exact Option.noConfusion h1
    · rw [List.getElem?_eq_none hb] at h2
      exact Option.noConfusion h2

/-- A prefix of non-matching entries is skipped by `getFileType`. -/
lemma getFileType_append (b : List Nat) (pre rest : List SignatureEntry)
    (fb : String) (h : ∀ p ∈ pre, check b p = false) :
    getFileType b (pre ++ rest) fb = getFileType b rest fb := by
  induction pre with
  | nil => rfl
  | cons p ps ih =>
    have hp : check b p = false := h p (List.mem_cons_self p ps)
    rw [List.cons_append, getFileType, if_neg (by simp [hp])]
    exact ih fun q hq => h q (List.mem_cons_of_mem p hq)

/-- C1: `check b e` succeeds iff every pattern position is either a wildcard
(which matches any byte, including an absent one past the buffer's end) or a
concrete byte that is present in the buffer at `e.offset + i` and equal to
it; a concrete pattern byte that is absent or unequal makes the whole match
false. -/
theorem check_matches_iff (b : List Nat) (e : SignatureEntry) :
    check b e = true ↔
      ∀ i s, e.signature[i]? = some s →
        (s = none ∨ ∃ v, s = some v ∧ b[e.offset + i]? = some v) := by
  rw [check_eq_true_iff]
  constructor
  · intro h i s hs
    rcases h i s hs with h1 | h2
    · exact Or.inl h1
    · match s with
      | none => exact Or.inl rfl
      | some v => exact Or.inr ⟨v, rfl, h2⟩
  · intro h i s hs
    rcases h i s hs with h1 | ⟨v, hv, hb⟩
    · exact Or.inl h1
    · subst hv
      exact Or.inr hb

/-- C3 counterexample: an entry whose whole pattern is a wildcard matches the
empty buffer even though the buffer is shorter than `offset + pattern
length`, so "a buffer shorter than `offset + len(pattern)` never matches" is
false as stated. -/
theorem short_buffer_counterexample :
    ([] : List Nat).length < wildcardEntry.offset + wildcardEntry.signature.length ∧
      check [] wildcardEntry = true := by
  decide

/-- C3 amended: for every entry `e` and buffer `b`, if some pattern index `i`
holds a concrete (non-wildcard) byte and the corresponding buffer position
`e.offset + i` lies past the buffer's end, then `check b e` is false (in
particular a buffer shorter than `offset + length(pattern)` whose missing
positions include a concrete pattern byte never matches); `check` is a total
function, so evaluation never errors. -/
theorem check_short_buffer (b : List Nat) (e : SignatureEntry) (i v : Nat)
    (hp : e.signature[i]? = some (some v)) (hb : b.length ≤ e.offset + i) :
    check b e = false :=
  check_false_of_absent b e i v hp hb

/-- Witness for C3 amended, at the PNG entry and the empty buffer. -/
theorem check_short_buffer_witness :
    pngEntry.signature[0]? = some (some 0x89) ∧
      ([] : List Nat).length ≤ pngEntry.offset + 0 ∧
      check [] pngEntry = false :=
  ⟨by decide, by decide, check_short_buffer [] pngEntry 0 0x89 (by decide) (by decide)⟩

/-- C4 counterexample: a non-empty table whose single entry has offset 0 and
an all-wildcard pattern classifies the empty buffer as that entry, not as
the fallback. -/
theorem empty_buffer_counterexample :
    ([wildcardEntry] : List SignatureEntry) ≠ [] ∧
      getFileType [] [wildcardEntry] "text/plain" ≠ ⟨"text/plain", ""⟩ := by
  decide

/-- C4 amended: for every non-empty table each of whose entries has at least
one concrete (non-wildcard) pattern byte, and every fallback, `getFileType`
on a buffer of length 0 returns the fallback result. -/
theorem getFileType_empty_buffer (table : List SignatureEntry) (fb : String)
    (hne : table ≠ [])
    (hconc : ∀ e ∈ table, ∃ (i : Nat) (v : Nat), e.signature[i]? = some (some v)) :
    getFileType [] table fb = ⟨fb, ""⟩ := by
  apply getFileType_eq_fallback
  intro e he
  rcases hconc e he with ⟨i, v, hp⟩
  exact check_false_of_absent [] e i v hp (Nat.zero_le _)

/-- Witness for C4 amended, at the singleton PNG table. -/
theorem getFileType_empty_buffer_witness :
    getFileType [] [pngEntry] "text/plain" = ⟨"text/plain", ""⟩ :=
  getFileType_empty_buffer [pngEntry] "text/plain" (by decide)
    (by
      intro e he
      rw [List.mem_singleton] at he
      subst he
      exact ⟨0, 0x89, by decide⟩)

/-- C2: `getFileType` scans the table in construction order and returns the
`{ mime, ext }` of the first entry whose pattern matches — so when several
entries match, the earliest in table order wins — and only when no entry at
all matches does it return the fallback result. -/
theorem getFileType_scan_order (b : List Nat) (table : List SignatureEntry)
    (fb : String) :
    (∀ (i : Nat) (e : SignatureEntry), table[i]? = some e → check b e = true →
        (∀ (j : Nat) (r : SignatureEntry), j < i → table[j]? = some r →
          check b r = false) →
        getFileType b table fb = ⟨e.mime, e.ext⟩) ∧
      ((∀ r ∈ table, check b r = false) → getFileType b table fb = ⟨fb, ""⟩) := by
  constructor
  · intro i e hi hcheck hfirst
    exact getFileType_first_index b fb table i e hi hcheck hfirst
  · intro h
    exact getFileType_eq_fallback b table fb h

/-- Witness for C2: two entries with identical patterns both match the PNG
buffer; the result is the earlier entry's `{ mime, ext }`. -/
theorem getFileType_scan_order_witness :
    getFileType pngBuffer [pngEntry, pngShadowEntry] "fb" = ⟨"image/png", "png"⟩ :=
  (getFileType_scan_order pngBuffer [pngEntry, pngShadowEntry] "fb").1 0 pngEntry
    (by decide) (by decide)
    (fun j r hj _ => absurd hj (Nat.not_lt_zero j))

/-- C5: `getFileType` never fails — for every buffer, table and fallback it
returns a normal result: either the `{ mime, ext }` of some matching entry,
or, when no entry matches, the successfully computed fallback result. -/
theorem getFileType_never_fails (b : List Nat) (table : List SignatureEntry)
    (fb : String) :
    (∃ r, r ∈ table ∧ check b r = true ∧
        getFileType b table fb = ⟨r.mime, r.ext⟩) ∨
      ((∀ r ∈ table, check b r = false) ∧ getFileType b table fb = ⟨fb, ""⟩) :=
  getFileType_cases b table fb

/-- C6: if buffer `b` matches entry `e`, then changing the single byte of `b`
at a position `e.offset + i` carrying a concrete (non-wildcard) pattern byte
to any different value makes the match fail. -/
theorem check_flip (b : List Nat) (e : SignatureEntry) (i v c : Nat)
    (hc : check b e = true) (hp : e.signature[i]? = some (some v))
    (hne : c ≠ v) :
    check (b.set (e.offset + i) c) e = false := by
  have hb : b[e.offset + i]? = some v := by
    rcases (check_eq_true_iff b e).mp hc i (some v) hp with h1 | h2
    · exact absurd h1 (by simp)
    · exact h2
  have hlt : e.offset + i < b.length := ((List.getElem?_eq_some).mp hb).1
  cases hres : check (b.set (e.offset + i) c) e with
  | false => rfl
  | true =>
    exfalso
    rcases (check_eq_true_iff _ e).mp hres i (some v) hp with h1 | h2
    · exact Option.noConfusion h1
    · have hset : (b.set (e.offset + i) c)[e.offset + i]? = some c := by
        simp [List.getElem?_set, hlt]
      rw [hset] at h2
      exact hne (Option.some_inj.mp h2)

/-- Witness for C6: flipping the first byte of the PNG buffer to 0 defeats
the PNG entry. -/
theorem check_flip_witness :
    check pngBuffer pngEntry = true ∧
      check (pngBuffer.set (pngEntry.offset + 0) 0) pngEntry = false :=
  ⟨by decide, check_flip pngBuffer pngEntry 0 0x89 0 (by decide) (by decide) (by decide)⟩

/-- C8: `check` reads only the buffer positions `e.offset + i` for pattern
indices `i` (each present or absent); two buffers that agree, as optional
values, at all those positions yield the same result. -/
theorem check_depends_only_on_window (e : SignatureEntry) (b1 b2 : List Nat)
    (h : ∀ i, i < e.signature.length → b1[e.offset + i]? = b2[e.offset + i]?) :
    check b1 e = check b2 e := by
  have key : ∀ bx bz : List Nat,
      (∀ i, i < e.signature.length → bx[e.offset + i]? = bz[e.offset + i]?) →
      check bx e = true → check bz e = true := by
    intro bx bz hagree hcheck
    rw [check_eq_true_iff] at hcheck ⊢
    intro i s hs
    have hlen : i < e.signature.length := ((List.getElem?_eq_some).mp hs).1
    rcases hcheck i s hs with h1 | h2
    · exact Or.inl h1
    · right
      rw [← hagree i hlen]
      exact h2
  have hsymm : ∀ i, i < e.signature.length → b2[e.offset + i]? = b1[e.offset + i]? :=
    fun i hi => (h i hi).symm
  cases h1 : check b1 e <;> cases h2 : check b2 e
  · rfl
  · exact absurd (key b2 b1 hsymm h2) (by simp [h1])
  · exact absurd (key b1 b2 h h1) (by simp [h2])
  · rfl

/-- Witness for C8: the PNG buffer and the PNG buffer with extra trailing
bytes agree on the PNG entry's window, so `check` agrees on them. -/
theorem check_depends_only_on_window_witness :
    check pngBuffer pngEntry = check (pngBuffer ++ [1, 2, 3]) pngEntry :=
  check_depends_only_on_window pngEntry pngBuffer (pngBuffer ++ [1, 2, 3]) (by decide)

/-- C9: an entry with an empty signature matches every buffer, so a table
containing it never yields the fallback: the result is some matching entry's
`{ mime, ext }`, and it is exactly the empty-signature entry's result for any
buffer not matched by an earlier entry. -/
theorem empty_signature_matches_all (b : List Nat) (pre post : List SignatureEntry)
    (e : SignatureEntry) (fb : String) (hsig : e.signature = []) :
    check b e = true ∧
      (∃ r, r ∈ pre ++ e :: post ∧ check b r = true ∧
          getFileType b (pre ++ e :: post) fb = ⟨r.mime, r.ext⟩) ∧
      ((∀ p ∈ pre, check b p = false) →
          getFileType b (pre ++ e :: post) fb = ⟨e.mime, e.ext⟩) := by
  have hcheck : check b e = true := by
    unfold check
    rw [hsig]
    rfl
  refine ⟨hcheck, ?_, ?_⟩
  · rcases getFileType_cases b (pre ++ e :: post) fb with hsome | ⟨hnone, _⟩
    · exact hsome
    · exact absurd hcheck
        (by simp [hnone e (List.mem_append_right pre (List.mem_cons_self e post))])
  · intro hpre
    rw [getFileType_append b pre (e :: post) fb hpre, getFileType, if_pos hcheck]

/-- Witness for C9: the empty-signature entry placed after the (non-matching)
PNG entry captures the empty buffer. -/
theorem empty_signature_matches_all_witness :
    getFileType [] ([pngEntry] ++ emptySigEntry :: []) "fb" =
      ⟨"image/empty", "emp"⟩ :=
  (empty_signature_matches_all [] [pngEntry] [] emptySigEntry "fb" (by decide)).2.2
    (by
      intro p hp
      rw [List.mem_singleton] at hp
      subst hp
      decide)

/-- C10: whenever no table entry matches, the returned fallback result
carries the empty string in its `ext` field, for every buffer, table and
fallback mime. -/
theorem getFileType_fallback_ext_empty (b : List Nat)
    (table : List SignatureEntry) (fb : String)
    (h : ∀ r ∈ table, check b r = false) :
    (getFileType b table fb).ext = "" := by
  rw [getFileType_eq_fallback b table fb h]

/-- Witness for C10: the PNG table does not match the empty buffer and the
fallback result's `ext` is empty. -/
theorem getFileType_fallback_ext_empty_witness :
    (getFileType [] [pngEntry] "application/pdf").ext = "" :=
  getFileType_fallback_ext_empty [] [pngEntry] "application/pdf"
    (by
      intro r hr
      rw [List.mem_singleton] at hr
      subst hr
      decide)

/-- Modelled from the spec: the error raised when a malformed signature entry
(empty pattern) is detected at table-construction time.  The construction
code (`signature-list.js`, which builds the signature table) is not under
src/. -/
inductive ConfigurationError where
  | emptyPattern
deriving DecidableEq, Repr

/-- Modelled from the spec: table construction validates the entries and is
the only fallible step — "malformed entries (empty pattern) should be
rejected at construction time with a `ConfigurationError`"; construction
from valid input cannot fail.  The construction code (`signature-list.js`)
is not under src/. -/
def mkSignatureTable (entries : List SignatureEntry) :
    Except ConfigurationError (List SignatureEntry) :=
  if entries.all fun e => !e.signature.isEmpty then .ok entries
  else .error .emptyPattern

/-- C7: constructing a table containing an entry with an empty pattern is
rejected with `ConfigurationError`; construction from entries whose patterns
are all non-empty always succeeds; and matching over a successfully
constructed table never surfaces an error — it always produces a normal
result (a recognized entry's `{ mime, ext }` or the fallback). -/
theorem mkSignatureTable_spec :
    (∀ es : List SignatureEntry, (∃ e ∈ es, e.signature = []) →
        mkSignatureTable es = .error .emptyPattern) ∧
      (∀ es : List SignatureEntry, (∀ e ∈ es, e.signature ≠ []) →
        mkSignatureTable es = .ok es) ∧
      (∀ (es t : List SignatureEntry) (b : List Nat) (fb : String),
        mkSignatureTable es = .ok t →
        (getFileType b t fb = ⟨fb, ""⟩ ∨
          ∃ r ∈ t, getFileType b t fb = ⟨r.mime, r.ext⟩)) := by
  refine ⟨?_, ?_, ?_⟩
  · intro es ⟨e, he, hsig⟩
    rw [mkSignatureTable, if_neg]
    intro hall
    have := List.all_eq_true.mp hall e he
    rw [hsig] at this
    simp at this
  · intro es hvalid
    rw [mkSignatureTable, if_pos]
    refine List.all_eq_true.mpr ?_
    intro e he
    have := hvalid e he
    simpa [List.isEmpty_iff] using this
  · intro es t b fb _
    rcases getFileType_cases b t fb with ⟨r, hr, _, hres⟩ | ⟨_, hres⟩
    · exact Or.inr ⟨r, hr, hres⟩
    · exact Or.inl hres

/-- Witness for C7: a table with an empty-pattern entry is rejected, the
singleton PNG table is accepted, and matching over it yields a normal
result. -/
theorem mkSignatureTable_spec_witness :
    mkSignatureTable [emptySigEntry] = .error .emptyPattern ∧
      mkSignatureTable [pngEntry] = .ok [pngEntry] ∧
      (getFileType [] [pngEntry] "fb" = ⟨"fb", ""⟩ ∨
        ∃ r ∈ ([pngEntry] : List SignatureEntry),
          getFileType [] [pngEntry] "fb" = ⟨r.mime, r.ext⟩) :=
  ⟨mkSignatureTable_spec.1 [emptySigEntry] ⟨emptySigEntry, by decide, by decide⟩,
    mkSignatureTable_spec.2.1 [pngEntry] (by decide),
    mkSignatureTable_spec.2.2 [pngEntry] [pngEntry] [] "fb"
      (mkSignatureTable_spec.2.1 [pngEntry] (by decide))⟩
